import Mathlib

/-!
Placement-group provider: `pkg/providers/placementgroup/placementgroup.go`.

A shallow embedding of `Provider.Get` and of the collaborators it talks to.

* Go pointers that may be nil are `Option`s; a nil slice is `none`, an empty
  non-nil slice is `some []`.
* A run-time fault of the Go program (nil dereference, failing type assertion)
  is the outcome `Outcome.fault`.
* The provider state carries, next to the cache and the change monitor, a
  trace of the calls made to the collaborators, so that "no remote lookup" or
  "no cache access" are statements about the trace.
* The remote answer of `DescribePlacementGroupsWithContext` and the hash of a
  single selector term are supplied by the environment `Env`.
-/

set_option autoImplicit false

namespace Placementgroup

/-! ## Data model -/

/-- A Go `error` value. -/
structure GoError where
  msg : String
  deriving DecidableEq, Repr

/-- One tag of an EC2 resource (`ec2.Tag`). -/
structure Tag where
  Key : Option String
  Value : Option String
  deriving DecidableEq, Repr

/-- The resource descriptor `ec2.PlacementGroup`; every field is a pointer in the SDK. -/
structure PlacementGroup where
  GroupArn : Option String
  GroupId : Option String
  GroupName : Option String
  PartitionCount : Option Int
  SpreadLevel : Option String
  State : Option String
  Strategy : Option String
  Tags : List (Option Tag)
  deriving DecidableEq, Repr

/-- The answer `ec2.DescribePlacementGroupsOutput`: a slice of pointers to resources. -/
structure DescribePlacementGroupsOutput where
  PlacementGroups : List (Option PlacementGroup)
  deriving DecidableEq, Repr

/-- One selector term of `nodeClass.Spec.LicenseSelectorTerms`; the code reads its `Name`. -/
structure LicenseSelectorTerm where
  Name : String
  deriving DecidableEq, Repr

/-- The part of `v1beta1.EC2NodeClassSpec` read by `Get`; `none` is the nil slice. -/
structure EC2NodeClassSpec where
  LicenseSelectorTerms : Option (List LicenseSelectorTerm)
  deriving DecidableEq, Repr

/-- The part of `v1beta1.EC2NodeClass` read by `Get`. -/
structure EC2NodeClass where
  Name : String
  IsNodeTemplate : Bool
  Spec : EC2NodeClassSpec
  deriving DecidableEq, Repr

/-- A Go `interface{}` value as held by the cache: the nil interface, a
`*ec2.PlacementGroup` (itself possibly a nil pointer), or a value of another type. -/
inductive Iface where
  | nil
  | placementGroup (g : Option PlacementGroup)
  | other (typeName : String)
  deriving DecidableEq, Repr

/-- The calls `Get` makes on its collaborators, in the order of the trace. -/
inductive Event where
  | lock
  | unlock
  | cacheGet (key : String)
  | cacheSet (key : String)
  | describePlacementGroups
  | hasChanged (key : String)
  | debugf (msg : String)
  deriving DecidableEq, Repr

/-! ## Collaborators -/

/-- Modelled from the spec: the cache store collaborator (`patrickmn/go-cache`, not part of
this repository). The list holds the entries that are present and unexpired at the time of
the call; the first entry for a key is the live one. -/
structure Cache where
  items : List (String × Iface)
  deriving DecidableEq, Repr

/-- Modelled from the spec: `Get(key) → (value, found)` of the cache store collaborator;
`none` is `found = false`. -/
def Cache.Get (c : Cache) (k : String) : Option Iface :=
  match c.items.find? (fun kv => kv.1 == k) with
  | some kv => some kv.2
  | none => none

/-- Modelled from the spec: the Change Monitor (`pretty.ChangeMonitor` of karpenter-core,
not under src/): a mapping from scope key to the last value seen for it. -/
structure ChangeMonitor (α : Type) where
  lastSeen : List (String × α)
  deriving DecidableEq, Repr

/-- Modelled from the spec: `pretty.NewChangeMonitor()`, a monitor that has seen nothing. -/
def NewChangeMonitor {α : Type} : ChangeMonitor α := ⟨[]⟩

/-- Modelled from the spec: the last value seen for a scope key, if any. -/
def ChangeMonitor.Load {α : Type} (c : ChangeMonitor α) (key : String) : Option α :=
  match c.lastSeen.find? (fun kv => kv.1 == key) with
  | some kv => some kv.2
  | none => none

/-- Modelled from the spec: replace the value stored for a scope key. -/
def ChangeMonitor.Store {α : Type} (c : ChangeMonitor α) (key : String) (value : α) :
    ChangeMonitor α :=
  ⟨(key, value) :: c.lastSeen.filter (fun kv => !(kv.1 == key))⟩

/-- Modelled from the spec: `HasChanged(scopeKey, value)` of the Change Monitor. It returns
true and updates the stored value when the scope key is unseen or the stored value differs
from `value`; it returns false, without update, when the stored value structurally equals
`value`. -/
def ChangeMonitor.HasChanged {α : Type} [DecidableEq α] (c : ChangeMonitor α) (key : String)
    (value : α) : Bool × ChangeMonitor α :=
  match c.Load key with
  | some existing => if existing = value then (false, c) else (true, c.Store key value)
  | none => (true, c.Store key value)

/-- What the environment supplies to one call of `Get`: the hash of a single selector term
(the walk of `hashstructure` over one slice element, which may fail), and the answer the
remote inventory gives if it is asked during the call. -/
structure Env where
  visit : LicenseSelectorTerm → Except GoError Nat
  DescribePlacementGroupsWithContext : Except GoError DescribePlacementGroupsOutput

/-- Modelled from the spec: the slice case of `hashstructure` with `SlicesAsSets: true`
(library code, not under src/). The elements are visited in order, the first failure is
returned, and the 64-bit element hashes are combined by exclusive or, which does not
depend on the order of the elements. -/
def visitSlice (visit : LicenseSelectorTerm → Except GoError Nat) :
    List LicenseSelectorTerm → Nat → Except GoError Nat
  | [], h => .ok h
  | x :: xs, h =>
    match visit x with
    | .error e => .error e
    | .ok current => visitSlice visit xs (h ^^^ (current % 2 ^ 64))

/-- Modelled from the spec: `hashstructure.Hash(selectors, FormatV2, SlicesAsSets: true)`,
the order-independent hash from which the cache key is derived. -/
def Hash (visit : LicenseSelectorTerm → Except GoError Nat)
    (selectors : List LicenseSelectorTerm) : Except GoError Nat :=
  visitSlice visit selectors 0

/-! ## The provider -/

/-- The state of `Provider`: the cache, the change monitor, and the trace of collaborator
calls made so far (most recent last). -/
structure Provider where
  cache : Cache
  cm : ChangeMonitor (Option PlacementGroup)
  trace : List Event
  deriving DecidableEq, Repr

/-- Append one event to the trace. -/
def Provider.emit (p : Provider) (e : Event) : Provider :=
  { p with trace := p.trace ++ [e] }

/-- How a call of `Get` ends: it returns its pair `(*ec2.PlacementGroup, error)`, or the Go
run time faults. -/
inductive Outcome where
  | ret (group : Option PlacementGroup) (err : Option GoError)
  | fault (what : String)
  deriving DecidableEq, Repr

/-- The inner loop of lines 80-85 for the resource `pg`: `some true` when a selector's name
equals `*pg.GroupName` (the loop breaks there), `some false` when the selectors are
exhausted, `none` when the comparison dereferences a nil resource or a nil name. -/
def matchesAny (pg : Option PlacementGroup) : List LicenseSelectorTerm → Option Bool
  | [] => some false
  | s :: rest =>
    match pg with
    | none => none
    | some g =>
      match g.GroupName with
      | none => none
      | some name => if name = s.Name then some true else matchesAny pg rest

/-- The outer loop of lines 78-86, started with the current value of `group`: every
resource that matches overwrites `group`. `none` is a fault of the comparison. -/
def filterGroups (selectors : List LicenseSelectorTerm) :
    List (Option PlacementGroup) → Option PlacementGroup → Option (Option PlacementGroup)
  | [], group => some group
  | pg :: rest, group =>
    match matchesAny pg selectors with
    | none => none
    | some true => filterGroups selectors rest pg
    | some false => filterGroups selectors rest group

/-- The scope key `fmt.Sprintf("placementGroups/%t/%s", nodeClass.IsNodeTemplate, nodeClass.Name)`. -/
def scopeKey (nodeClass : EC2NodeClass) : String :=
  "placementGroups/" ++ toString nodeClass.IsNodeTemplate ++ "/" ++ nodeClass.Name

/-- The miss path of `Provider.Get` (lines 69-94): ask the remote inventory, filter it
against the selectors, report the result to the change monitor, return it. `p` is the state
after the cache was consulted. -/
def getMiss (env : Env) (p : Provider) (nc : EC2NodeClass)
    (selectors : List LicenseSelectorTerm) : Outcome × Provider :=
  let p2 := p.emit .describePlacementGroups
  match env.DescribePlacementGroupsWithContext with
  | .error err =>
    (.ret none (some err), p2.emit (.debugf "Error from ec2:describeplacementgroups"))
  | .ok output =>
    match filterGroups selectors output.PlacementGroups none with
    | none => (.fault "nil pointer dereference: GroupName", p2)
    | some group =>
      let r := p2.cm.HasChanged (scopeKey nc) group
      let p3 := { p2.emit (.hasChanged (scopeKey nc)) with cm := r.2 }
      let p4 := if r.1 then p3.emit (.debugf "discovered placement groups") else p3
      (.ret group none, p4)

/-- Line 66, `return cached.(*ec2.PlacementGroup), nil`: the type assertion yields the
pointer held by the interface value, or faults when the value is of another type or is the
nil interface. -/
def returnCached : Iface → Outcome
  | .placementGroup cached => .ret cached none
  | _ => .fault "interface conversion: not *ec2.PlacementGroup"

/-- The body of `Provider.Get` (lines 54-94), between `p.Lock()` and the deferred
`p.Unlock()`. -/
def getBody (env : Env) (p : Provider) (nodeClass : Option EC2NodeClass) :
    Outcome × Provider :=
  match nodeClass with
  | none => (.fault "nil pointer dereference: nodeClass", p)
  | some nc =>
    match nc.Spec.LicenseSelectorTerms with
    | none => (.ret none none, p)
    | some selectors =>
      match Hash env.visit selectors with
      | .error err => (.ret none (some err), p)
      | .ok hash =>
        let p1 := p.emit (.cacheGet (toString hash))
        match p1.cache.Get (toString hash) with
        | some cached => (returnCached cached, p1)
        | none => getMiss env p1 nc selectors

/-- The method `Provider.Get`: take the lock, run the body, release the lock (deferred, so
also when the body faults). -/
def Get (env : Env) (p : Provider) (nodeClass : Option EC2NodeClass) : Outcome × Provider :=
  let r := getBody env (p.emit .lock) nodeClass
  (r.1, r.2.emit .unlock)

/-- Number of remote lookups recorded in a trace. -/
def remoteLookups (t : List Event) : Nat :=
  t.count .describePlacementGroups

/-- Whether an event is a cache access (read or write). -/
def Event.isCacheAccess : Event → Bool
  | .cacheGet _ => true
  | .cacheSet _ => true
  | _ => false

/-- Number of cache accesses recorded in a trace. -/
def cacheAccesses (t : List Event) : Nat :=
  t.countP Event.isCacheAccess

/-- Whether an event is a call of the change monitor. -/
def Event.isHasChanged : Event → Bool
  | .hasChanged _ => true
  | _ => false

/-- Number of change-monitor calls recorded in a trace. -/
def monitorCalls (t : List Event) : Nat :=
  t.countP Event.isHasChanged

/-! ## Concrete inputs -/

/-- A placement group named "a", first of its name. -/
def pgA1 : PlacementGroup := ⟨none, some "pg-1", some "a", none, none, none, none, []⟩

/-- A placement group named "b". -/
def pgB : PlacementGroup := ⟨none, some "pg-2", some "b", none, none, none, none, []⟩

/-- A second placement group named "a", with another identifier. -/
def pgA3 : PlacementGroup := ⟨none, some "pg-3", some "a", none, none, none, none, []⟩

/-- A placement group whose `GroupName` pointer is nil. -/
def pgNoName : PlacementGroup := ⟨none, some "pg-4", none, none, none, none, none, []⟩

/-- An element hash that never fails: the length of the name. -/
def visitLen (s : LicenseSelectorTerm) : Except GoError Nat := .ok s.Name.length

/-- An element hash that fails on the empty name. -/
def visitStrict (s : LicenseSelectorTerm) : Except GoError Nat :=
  if s.Name = "" then .error ⟨"unsupported"⟩ else .ok s.Name.length

/-- The remote inventory `[a, b, a]` of the spec, answered successfully. -/
def envABA : Env := ⟨visitLen, .ok ⟨[some pgA1, some pgB, some pgA3]⟩⟩

/-- A remote inventory whose second resource has no name. -/
def envNoName : Env := ⟨visitLen, .ok ⟨[some pgA1, some pgNoName]⟩⟩

/-- A remote inventory that fails. -/
def envDown : Env := ⟨visitLen, .error ⟨"RequestLimitExceeded"⟩⟩

/-- An environment whose element hash fails on the empty name. -/
def envStrict : Env := ⟨visitStrict, .ok ⟨[some pgA1]⟩⟩

/-- A fresh provider: empty cache, fresh change monitor, empty trace. -/
def fresh : Provider := ⟨⟨[]⟩, NewChangeMonitor, []⟩

/-- A provider whose cache holds `pgB` under the key "1". -/
def warm : Provider := ⟨⟨[("1", .placementGroup (some pgB))]⟩, NewChangeMonitor, []⟩

/-- A provider whose change monitor has already seen a value for another scope. -/
def seen : Provider := ⟨⟨[]⟩, ⟨[("placementGroups/true/other", some pgB)]⟩, [.lock, .unlock]⟩

/-- A node class selecting the name "a". -/
def ncA : EC2NodeClass := ⟨"default", false, ⟨some [⟨"a"⟩]⟩⟩

/-- A node-template caller of another name selecting the name "a". -/
def ncA2 : EC2NodeClass := ⟨"other", true, ⟨some [⟨"a"⟩]⟩⟩

/-- A node class without selectors (nil slice). -/
def ncNil : EC2NodeClass := ⟨"default", false, ⟨none⟩⟩

/-- A node class whose only selector has the empty name. -/
def ncBad : EC2NodeClass := ⟨"default", false, ⟨some [⟨""⟩]⟩⟩

/-- A node class whose selector slice is empty but not nil. -/
def ncEmpty : EC2NodeClass := ⟨"default", false, ⟨some []⟩⟩

/-- A node class selecting the names "b", "a", "b": the names of `ncAB` in another order and
multiplicity. -/
def ncBAB : EC2NodeClass := ⟨"default", false, ⟨some [⟨"b"⟩, ⟨"a"⟩, ⟨"b"⟩]⟩⟩

/-- A node class selecting the names "a" and "b". -/
def ncAB : EC2NodeClass := ⟨"default", false, ⟨some [⟨"a"⟩, ⟨"b"⟩]⟩⟩

/-- The run of `n` calls of `Get` with the same node class and the same environment. The
exclusive lock taken at line 51 and released by the deferred unlock of line 52 admits
concurrent callers one at a time, so `n` concurrent identical calls run one after the
other, and every order of admission is this run. -/
def getSerial (env : Env) (nodeClass : Option EC2NodeClass) : Nat → Provider → Provider
  | 0, p => p
  | n + 1, p => getSerial env nodeClass n (Get env p nodeClass).2

/-! ## Shared facts about `Get` -/

theorem emit_cache (p : Provider) (e : Event) : (p.emit e).cache = p.cache := rfl

theorem emit_cm (p : Provider) (e : Event) : (p.emit e).cm = p.cm := rfl

theorem emit_trace (p : Provider) (e : Event) : (p.emit e).trace = p.trace ++ [e] := rfl

/-- The miss path when the remote lookup fails. -/
theorem getMiss_error (env : Env) (p : Provider) (nc : EC2NodeClass)
    (selectors : List LicenseSelectorTerm) (err : GoError)
    (hd : env.DescribePlacementGroupsWithContext = .error err) :
    getMiss env p nc selectors =
      (.ret none (some err),
        (p.emit .describePlacementGroups).emit
          (.debugf "Error from ec2:describeplacementgroups")) := by
  simp only [getMiss, hd]

/-- The miss path when the comparison of the filter faults. -/
theorem getMiss_fault (env : Env) (p : Provider) (nc : EC2NodeClass)
    (selectors : List LicenseSelectorTerm) (output : DescribePlacementGroupsOutput)
    (hd : env.DescribePlacementGroupsWithContext = .ok output)
    (hf : filterGroups selectors output.PlacementGroups none = none) :
    getMiss env p nc selectors =
      (.fault "nil pointer dereference: GroupName", p.emit .describePlacementGroups) := by
  simp only [getMiss, hd, hf]

/-- The miss path when the remote lookup succeeds and the filter selects `group`. -/
theorem getMiss_ok (env : Env) (p : Provider) (nc : EC2NodeClass)
    (selectors : List LicenseSelectorTerm) (output : DescribePlacementGroupsOutput)
    (group : Option PlacementGroup)
    (hd : env.DescribePlacementGroupsWithContext = .ok output)
    (hf : filterGroups selectors output.PlacementGroups none = some group) :
    getMiss env p nc selectors =
      (.ret group none,
        if (p.cm.HasChanged (scopeKey nc) group).1 then
          { cache := p.cache, cm := (p.cm.HasChanged (scopeKey nc) group).2,
            trace := p.trace ++ [.describePlacementGroups] ++ [.hasChanged (scopeKey nc)] ++
              [.debugf "discovered placement groups"] }
        else
          { cache := p.cache, cm := (p.cm.HasChanged (scopeKey nc) group).2,
            trace := p.trace ++ [.describePlacementGroups] ++ [.hasChanged (scopeKey nc)] }) := by
  simp only [getMiss, hd, hf, Provider.emit]

/-- The body of `Get` for a nil selector slice. -/
theorem getBody_nil (env : Env) (p : Provider) (nc : EC2NodeClass)
    (hs : nc.Spec.LicenseSelectorTerms = none) :
    getBody env p (some nc) = (.ret none none, p) := by
  simp only [getBody, hs]

/-- The body of `Get` when the hash of the selectors fails. -/
theorem getBody_hash_error (env : Env) (p : Provider) (nc : EC2NodeClass)
    (selectors : List LicenseSelectorTerm) (err : GoError)
    (hs : nc.Spec.LicenseSelectorTerms = some selectors)
    (hh : Hash env.visit selectors = .error err) :
    getBody env p (some nc) = (.ret none (some err), p) := by
  simp only [getBody, hs, hh]

/-- The body of `Get` when the cache holds a value for the key. -/
theorem getBody_hit (env : Env) (p : Provider) (nc : EC2NodeClass)
    (selectors : List LicenseSelectorTerm) (hash : Nat) (v : Iface)
    (hs : nc.Spec.LicenseSelectorTerms = some selectors)
    (hh : Hash env.visit selectors = .ok hash)
    (hc : p.cache.Get (toString hash) = some v) :
    getBody env p (some nc) = (returnCached v, p.emit (.cacheGet (toString hash))) := by
  have hc1 : (p.emit (.cacheGet (toString hash))).cache.Get (toString hash) = some v := hc
  simp only [getBody, hs, hh, hc1]

/-- The body of `Get` when the cache holds nothing for the key. -/
theorem getBody_miss (env : Env) (p : Provider) (nc : EC2NodeClass)
    (selectors : List LicenseSelectorTerm) (hash : Nat)
    (hs : nc.Spec.LicenseSelectorTerms = some selectors)
    (hh : Hash env.visit selectors = .ok hash)
    (hc : p.cache.Get (toString hash) = none) :
    getBody env p (some nc) =
      getMiss env (p.emit (.cacheGet (toString hash))) nc selectors := by
  have hc1 : (p.emit (.cacheGet (toString hash))).cache.Get (toString hash) = none := hc
  simp only [getBody, hs, hh, hc1]

/-- The miss path never writes the cache: there is no `Set` in the source. -/
theorem getMiss_cache (env : Env) (p : Provider) (nc : EC2NodeClass)
    (selectors : List LicenseSelectorTerm) :
    (getMiss env p nc selectors).2.cache = p.cache := by
  cases hd : env.DescribePlacementGroupsWithContext with
  | error err => rw [getMiss_error env p nc selectors err hd]; rfl
  | ok output =>
    cases hf : filterGroups selectors output.PlacementGroups none with
    | none => rw [getMiss_fault env p nc selectors output hd hf]; rfl
    | some group =>
      rw [getMiss_ok env p nc selectors output group hd hf]
      simp only
      split <;> rfl

/-- No path through the body of `Get` writes the cache. -/
theorem getBody_cache (env : Env) (p : Provider) (nodeClass : Option EC2NodeClass) :
    (getBody env p nodeClass).2.cache = p.cache := by
  cases nodeClass with
  | none => rfl
  | some nc =>
    cases hs : nc.Spec.LicenseSelectorTerms with
    | none => rw [getBody_nil env p nc hs]
    | some selectors =>
      cases hh : Hash env.visit selectors with
      | error err => rw [getBody_hash_error env p nc selectors err hs hh]
      | ok hash =>
        cases hc : p.cache.Get (toString hash) with
        | none => rw [getBody_miss env p nc selectors hash hs hh hc, getMiss_cache]; rfl
        | some v => rw [getBody_hit env p nc selectors hash v hs hh hc]; rfl

/-- The cache after `Get` is the cache before it. -/
theorem Get_cache (env : Env) (p : Provider) (nodeClass : Option EC2NodeClass) :
    (Get env p nodeClass).2.cache = p.cache := by
  simp [Get, emit_cache, getBody_cache]

/-- What the miss path returns depends on the remote answer and the selectors only. -/
theorem getMiss_fst (env : Env) (p q : Provider) (nc nd : EC2NodeClass)
    (selectors : List LicenseSelectorTerm) :
    (getMiss env p nc selectors).1 = (getMiss env q nd selectors).1 := by
  cases hd : env.DescribePlacementGroupsWithContext with
  | error err => rw [getMiss_error env p nc selectors err hd, getMiss_error env q nd selectors err hd]
  | ok output =>
    cases hf : filterGroups selectors output.PlacementGroups none with
    | none =>
      rw [getMiss_fault env p nc selectors output hd hf, getMiss_fault env q nd selectors output hd hf]
    | some group =>
      rw [getMiss_ok env p nc selectors output group hd hf,
        getMiss_ok env q nd selectors output group hd hf]

/-- Visiting a slice succeeds with the same hash, or fails, alike for both orders of a
permutation. -/
theorem visitSlice_perm (visit : LicenseSelectorTerm → Except GoError Nat)
    {xs ys : List LicenseSelectorTerm} (hp : xs.Perm ys) :
    ∀ h : Nat, (visitSlice visit xs h).toOption = (visitSlice visit ys h).toOption := by
  induction hp with
  | nil => intro h; rfl
  | cons x _ ih =>
    intro h
    simp only [visitSlice]
    cases visit x with
    | error e => rfl
    | ok current => exact ih _
  | swap x y l =>
    intro h
    simp only [visitSlice]
    cases visit x with
    | error e => cases visit y <;> rfl
    | ok a =>
      cases visit y with
      | error e => rfl
      | ok b =>
        simp only
        rw [Nat.xor_assoc, Nat.xor_comm (b % 2 ^ 64), ← Nat.xor_assoc]
  | trans _ _ ih1 ih2 => intro h; exact (ih1 h).trans (ih2 h)

/-- An `Except` value is `ok k` exactly when its `toOption` is `some k`. -/
theorem toOption_eq_some {ε α : Type} (x : Except ε α) (k : α) :
    x.toOption = some k ↔ x = .ok k := by
  cases x <;> simp [Except.toOption]

/-- An `Except` value is an error exactly when its `toOption` is `none`. -/
theorem toOption_eq_none {ε α : Type} (x : Except ε α) :
    x.toOption = none ↔ ∃ e, x = .error e := by
  cases x <;> simp [Except.toOption]

/-- After a store the scope key holds the stored value. -/
theorem Load_Store_same {α : Type} (c : ChangeMonitor α) (key : String) (value : α) :
    (c.Store key value).Load key = some value := by
  simp [ChangeMonitor.Load, ChangeMonitor.Store]

/-- Dropping the entries of one key does not change what is found for another key. -/
theorem find_filter_other {α : Type} (l : List (String × α)) (key other : String)
    (hne : other ≠ key) :
    (l.filter (fun kv => !(kv.1 == key))).find? (fun kv => kv.1 == other) =
      l.find? (fun kv => kv.1 == other) := by
  induction l with
  | nil => rfl
  | cons a l ih =>
    simp only [List.filter_cons]
    by_cases hk : a.1 = key
    · have h1 : (!(a.1 == key)) = false := by simp [hk]
      have h2 : (a.1 == other) = false := by
        simp only [beq_eq_false_iff_ne, ne_eq]
        exact fun h => hne (h.symm.trans hk)
      simp only [h1, Bool.false_eq_true, if_false, List.find?_cons, h2]
      exact ih
    · have h1 : (!(a.1 == key)) = true := by simp [hk]
      simp only [h1, if_true, List.find?_cons]
      rw [ih]

/-- A store leaves the value of every other scope key as it was. -/
theorem Load_Store_other {α : Type} (c : ChangeMonitor α) (key other : String) (value : α)
    (hne : other ≠ key) : (c.Store key value).Load other = c.Load other := by
  have h2 : (key == other) = false := by
    simp only [beq_eq_false_iff_ne, ne_eq]
    exact fun h => hne h.symm
  simp only [ChangeMonitor.Load, ChangeMonitor.Store, List.find?_cons, h2]
  rw [find_filter_other c.lastSeen key other hne]

/-- Whatever `HasChanged` answers, afterwards the scope key holds the value passed. -/
theorem Load_HasChanged {α : Type} [DecidableEq α] (c : ChangeMonitor α) (key : String)
    (value : α) : (c.HasChanged key value).2.Load key = some value := by
  unfold ChangeMonitor.HasChanged
  cases hl : c.Load key with
  | none => exact Load_Store_same c key value
  | some existing =>
    by_cases he : existing = value
    · simp only [he, if_true]; rw [hl, he]
    · simp only [he, if_false]; exact Load_Store_same c key value

/-- For a resource with a name the inner loop never faults, and it reports a match exactly
when some selector carries that name. -/
theorem matchesAny_named (g : PlacementGroup) (name : String) (hn : g.GroupName = some name)
    (selectors : List LicenseSelectorTerm) :
    (matchesAny (some g) selectors = some true ∧ ∃ s ∈ selectors, g.GroupName = some s.Name) ∨
    (matchesAny (some g) selectors = some false ∧
      ∀ s ∈ selectors, g.GroupName ≠ some s.Name) := by
  induction selectors with
  | nil => right; exact ⟨rfl, fun s hs => absurd hs (List.not_mem_nil s)⟩
  | cons s rest ih =>
    by_cases he : name = s.Name
    · left
      refine ⟨?_, s, List.mem_cons_self s rest, by rw [hn, he]⟩
      simp only [matchesAny, hn, he, if_true]
    · have hstep : matchesAny (some g) (s :: rest) = matchesAny (some g) rest := by
        simp only [matchesAny, hn, he, if_false]
      rw [hstep]
      rcases ih with ⟨h1, t, ht, hg⟩ | ⟨h1, hno⟩
      · left; exact ⟨h1, t, List.mem_cons_of_mem s ht, hg⟩
      · right
        refine ⟨h1, fun t ht => ?_⟩
        rcases List.mem_cons.mp ht with rfl | ht
        · rw [hn]; exact fun h => he (Option.some.inj h)
        · exact hno t ht

/-- On an inventory whose resources are all non-nil and named, the outer loop never faults;
it ends with the starting value when no resource matches, and otherwise with the matching
resource after which no resource of the inventory matches. -/
theorem filterGroups_named (selectors : List LicenseSelectorTerm)
    (inv : List (Option PlacementGroup))
    (hwf : ∀ pg ∈ inv, ∃ g name, pg = some g ∧ g.GroupName = some name) :
    ∀ group : Option PlacementGroup, ∃ r, filterGroups selectors inv group = some r ∧
      ((r = group ∧ ∀ g, some g ∈ inv → ∀ s ∈ selectors, g.GroupName ≠ some s.Name) ∨
       (∃ g pre post, r = some g ∧ inv = pre ++ some g :: post ∧
          (∃ s ∈ selectors, g.GroupName = some s.Name) ∧
          ∀ g2, some g2 ∈ post → ∀ s ∈ selectors, g2.GroupName ≠ some s.Name)) := by
  induction inv with
  | nil =>
    intro group
    exact ⟨group, rfl, Or.inl ⟨rfl, fun g hg => absurd hg (List.not_mem_nil _)⟩⟩
  | cons pg rest ih =>
    intro group
    obtain ⟨g, name, rfl, hn⟩ := hwf pg (List.mem_cons_self pg rest)
    have ih1 := ih (fun q hq => hwf q (List.mem_cons_of_mem _ hq))
    rcases matchesAny_named g name hn selectors with ⟨hm, hex⟩ | ⟨hm, hno⟩
    · have hstep : filterGroups selectors (some g :: rest) group =
          filterGroups selectors rest (some g) := by
        simp only [filterGroups, hm]
      obtain ⟨r, hr, hcase⟩ := ih1 (some g)
      refine ⟨r, hstep.trans hr, Or.inr ?_⟩
      rcases hcase with ⟨hrg, hrest⟩ | ⟨g1, pre, post, hr1, hinv, hex1, hpost⟩
      · exact ⟨g, [], rest, hrg, rfl, hex, hrest⟩
      · exact ⟨g1, some g :: pre, post, hr1, by rw [hinv]; rfl, hex1, hpost⟩
    · have hstep : filterGroups selectors (some g :: rest) group =
          filterGroups selectors rest group := by
        simp only [filterGroups, hm]
      obtain ⟨r, hr, hcase⟩ := ih1 group
      refine ⟨r, hstep.trans hr, ?_⟩
      rcases hcase with ⟨hrg, hrest⟩ | ⟨g1, pre, post, hr1, hinv, hex1, hpost⟩
      · left
        refine ⟨hrg, fun g2 hg2 => ?_⟩
        rcases List.mem_cons.mp hg2 with h | h
        · rw [Option.some.inj h]; exact hno
        · exact hrest g2 h
      · right
        exact ⟨g1, some g :: pre, post, hr1, by rw [hinv]; rfl, hex1, hpost⟩

/-- With no selectors the inner loop compares nothing and reports no match. -/
theorem filterGroups_nil (inv : List (Option PlacementGroup)) :
    ∀ group : Option PlacementGroup, filterGroups [] inv group = some group := by
  induction inv with
  | nil => intro group; rfl
  | cons pg rest ih =>
    intro group
    simp only [filterGroups, matchesAny]
    exact ih group

/-- With at least one selector, the comparison faults on a nil resource and on a resource
whose name is nil. -/
theorem matchesAny_unnamed (pg : Option PlacementGroup)
    (hbad : pg = none ∨ ∃ g, pg = some g ∧ g.GroupName = none)
    (selectors : List LicenseSelectorTerm) (hne : selectors ≠ []) :
    matchesAny pg selectors = none := by
  cases selectors with
  | nil => exact absurd rfl hne
  | cons s rest =>
    rcases hbad with rfl | ⟨g, rfl, hg⟩
    · rfl
    · simp only [matchesAny, hg]

/-- With at least one selector, the outer loop faults as soon as the inventory holds a nil
resource or a resource whose name is nil. -/
theorem filterGroups_unnamed (selectors : List LicenseSelectorTerm) (hne : selectors ≠ [])
    (inv : List (Option PlacementGroup))
    (hbad : ∃ pg ∈ inv, pg = none ∨ ∃ g, pg = some g ∧ g.GroupName = none) :
    ∀ group : Option PlacementGroup, filterGroups selectors inv group = none := by
  induction inv with
  | nil =>
    obtain ⟨pg, hpg, _⟩ := hbad
    exact absurd hpg (List.not_mem_nil pg)
  | cons q rest ih =>
    intro group
    obtain ⟨pg, hpg, hb⟩ := hbad
    cases hm : matchesAny q selectors with
    | none => simp only [filterGroups, hm]
    | some b =>
      have hrest : ∃ pg ∈ rest, pg = none ∨ ∃ g, pg = some g ∧ g.GroupName = none := by
        rcases List.mem_cons.mp hpg with rfl | hin
        · rw [matchesAny_unnamed pg hb selectors hne] at hm
          cases hm
        · exact ⟨pg, hin, hb⟩
      cases b with
      | true => simp only [filterGroups, hm]; exact ih hrest _
      | false => simp only [filterGroups, hm]; exact ih hrest _

/-- Selector slices that carry the same names are both empty or both non-empty. -/
theorem same_names_nil (S1 S2 : List LicenseSelectorTerm)
    (hn : ∀ name, (∃ s ∈ S1, s.Name = name) ↔ (∃ s ∈ S2, s.Name = name)) :
    S1 = [] → S2 = [] := by
  intro h1
  cases S2 with
  | nil => rfl
  | cons s rest =>
    obtain ⟨t, ht, _⟩ := (hn s.Name).mpr ⟨s, List.mem_cons_self s rest, rfl⟩
    rw [h1] at ht
    exact absurd ht (List.not_mem_nil t)

/-- The inner loop gives the same answer, or faults alike, for selector slices that carry
the same names. -/
theorem matchesAny_same_names (S1 S2 : List LicenseSelectorTerm)
    (hn : ∀ name, (∃ s ∈ S1, s.Name = name) ↔ (∃ s ∈ S2, s.Name = name))
    (pg : Option PlacementGroup) : matchesAny pg S1 = matchesAny pg S2 := by
  by_cases h1 : S1 = []
  · rw [h1, same_names_nil S1 S2 hn h1]
  · have h2 : S2 ≠ [] := fun h => h1 (same_names_nil S2 S1 (fun name => (hn name).symm) h)
    by_cases hbad : pg = none ∨ ∃ g, pg = some g ∧ g.GroupName = none
    · rw [matchesAny_unnamed pg hbad S1 h1, matchesAny_unnamed pg hbad S2 h2]
    · cases pg with
      | none => exact absurd (Or.inl rfl) hbad
      | some g =>
        cases hg : g.GroupName with
        | none => exact absurd (Or.inr ⟨g, rfl, hg⟩) hbad
        | some name =>
          rcases matchesAny_named g name hg S1 with ⟨e1, s, hs, hsn⟩ | ⟨e1, no1⟩
          · rcases matchesAny_named g name hg S2 with ⟨e2, _⟩ | ⟨_, no2⟩
            · rw [e1, e2]
            · obtain ⟨t, ht, htn⟩ := (hn s.Name).mp ⟨s, hs, rfl⟩
              exact absurd (by rw [hsn, htn]) (no2 t ht)
          · rcases matchesAny_named g name hg S2 with ⟨_, t, ht, htn⟩ | ⟨e2, _⟩
            · obtain ⟨s, hs, hsn⟩ := (hn t.Name).mpr ⟨t, ht, rfl⟩
              exact absurd (by rw [htn, hsn]) (no1 s hs)
            · rw [e1, e2]

/-- The outer loop gives the same answer, or faults alike, for selector slices that carry
the same names. -/
theorem filterGroups_same_names (S1 S2 : List LicenseSelectorTerm)
    (hn : ∀ name, (∃ s ∈ S1, s.Name = name) ↔ (∃ s ∈ S2, s.Name = name))
    (inv : List (Option PlacementGroup)) :
    ∀ group : Option PlacementGroup, filterGroups S1 inv group = filterGroups S2 inv group := by
  induction inv with
  | nil => intro group; rfl
  | cons pg rest ih =>
    intro group
    simp only [filterGroups, matchesAny_same_names S1 S2 hn pg]
    cases matchesAny pg S2 with
    | none => rfl
    | some b => cases b <;> exact ih _

/-- What the miss path returns is the same for selector slices that carry the same names. -/
theorem getMiss_same_names (env : Env) (p q : Provider) (nc nd : EC2NodeClass)
    (S1 S2 : List LicenseSelectorTerm)
    (hn : ∀ name, (∃ s ∈ S1, s.Name = name) ↔ (∃ s ∈ S2, s.Name = name)) :
    (getMiss env p nc S1).1 = (getMiss env q nd S2).1 := by
  cases hd : env.DescribePlacementGroupsWithContext with
  | error err => rw [getMiss_error env p nc S1 err hd, getMiss_error env q nd S2 err hd]
  | ok output =>
    have heq := filterGroups_same_names S1 S2 hn output.PlacementGroups none
    cases hf : filterGroups S2 output.PlacementGroups none with
    | none =>
      rw [getMiss_fault env p nc S1 output hd (heq.trans hf),
        getMiss_fault env q nd S2 output hd hf]
    | some group =>
      rw [getMiss_ok env p nc S1 output group hd (heq.trans hf),
        getMiss_ok env q nd S2 output group hd hf]

/-- Every path of the miss path asks the remote inventory exactly once. -/
theorem getMiss_remoteLookups (env : Env) (p : Provider) (nc : EC2NodeClass)
    (selectors : List LicenseSelectorTerm) :
    remoteLookups (getMiss env p nc selectors).2.trace = remoteLookups p.trace + 1 := by
  cases hd : env.DescribePlacementGroupsWithContext with
  | error err =>
    rw [getMiss_error env p nc selectors err hd]
    simp [Provider.emit, remoteLookups, List.count_append]
  | ok output =>
    cases hf : filterGroups selectors output.PlacementGroups none with
    | none =>
      rw [getMiss_fault env p nc selectors output hd hf]
      simp [Provider.emit, remoteLookups, List.count_append]
    | some group =>
      rw [getMiss_ok env p nc selectors output group hd hf]
      simp only
      split <;> simp [remoteLookups, List.count_append]

/-- No path of the miss path touches the cache. -/
theorem getMiss_cacheAccesses (env : Env) (p : Provider) (nc : EC2NodeClass)
    (selectors : List LicenseSelectorTerm) :
    cacheAccesses (getMiss env p nc selectors).2.trace = cacheAccesses p.trace := by
  cases hd : env.DescribePlacementGroupsWithContext with
  | error err =>
    rw [getMiss_error env p nc selectors err hd]
    simp [Provider.emit, cacheAccesses, Event.isCacheAccess, List.countP_append]
  | ok output =>
    cases hf : filterGroups selectors output.PlacementGroups none with
    | none =>
      rw [getMiss_fault env p nc selectors output hd hf]
      simp [Provider.emit, cacheAccesses, Event.isCacheAccess, List.countP_append]
    | some group =>
      rw [getMiss_ok env p nc selectors output group hd hf]
      simp only
      split <;> simp [cacheAccesses, Event.isCacheAccess, List.countP_append]

/-- A call of `Get` that misses the cache asks the remote inventory exactly once. -/
theorem Get_miss_remoteLookups (env : Env) (p : Provider) (nc : EC2NodeClass)
    (selectors : List LicenseSelectorTerm) (hash : Nat)
    (hs : nc.Spec.LicenseSelectorTerms = some selectors)
    (hh : Hash env.visit selectors = .ok hash)
    (hc : p.cache.Get (toString hash) = none) :
    remoteLookups (Get env p (some nc)).2.trace = remoteLookups p.trace + 1 := by
  have hc1 : (p.emit .lock).cache.Get (toString hash) = none := hc
  simp only [Get, getBody_miss env _ nc selectors hash hs hh hc1]
  simp only [emit_trace, remoteLookups, List.count_append]
  have h := getMiss_remoteLookups env ((p.emit .lock).emit (.cacheGet (toString hash))) nc
    selectors
  simp only [emit_trace, remoteLookups, List.count_append] at h
  rw [h]
  simp

/-- A run of `n` calls that start on a miss asks the remote inventory `n` times: no call
stores what it resolved, so every call misses again. -/
theorem getSerial_remoteLookups (env : Env) (nc : EC2NodeClass)
    (selectors : List LicenseSelectorTerm) (hash : Nat)
    (hs : nc.Spec.LicenseSelectorTerms = some selectors)
    (hh : Hash env.visit selectors = .ok hash) :
    ∀ (n : Nat) (p : Provider), p.cache.Get (toString hash) = none →
      remoteLookups (getSerial env (some nc) n p).trace = remoteLookups p.trace + n := by
  intro n
  induction n with
  | zero => intro p _; rfl
  | succ n ih =>
    intro p hc
    have hc2 : (Get env p (some nc)).2.cache.Get (toString hash) = none := by
      rw [Get_cache]; exact hc
    simp only [getSerial]
    rw [ih _ hc2, Get_miss_remoteLookups env p nc selectors hash hs hh hc]
    omega

/-- When every value stored in the cache is a placement-group reference, so is every value
the cache returns. -/
theorem Cache_Get_placementGroup (c : Cache)
    (hall : ∀ kv ∈ c.items, ∃ g, kv.2 = Iface.placementGroup g) (k : String) (v : Iface)
    (hget : c.Get k = some v) : ∃ g, v = Iface.placementGroup g := by
  unfold Cache.Get at hget
  cases hf : c.items.find? (fun kv => kv.1 == k) with
  | none => rw [hf] at hget; cases hget
  | some kv =>
    rw [hf] at hget
    cases hget
    exact hall kv (List.mem_of_find?_eq_some hf)

/-- What `Get` returns and leaves behind, from what its body does. -/
theorem Get_eq (env : Env) (p : Provider) (nodeClass : Option EC2NodeClass) :
    Get env p nodeClass =
      ((getBody env (p.emit .lock) nodeClass).1,
       (getBody env (p.emit .lock) nodeClass).2.emit .unlock) := rfl

/-! ## The claims -/

/-- C1: for every provider state and every node class whose selector slice is nil, `Get`
returns the absent result with no error; the only collaborator calls are taking and
releasing the lock, so there is no remote lookup and no cache access (read or write), and
the change monitor and the cache are left as they were. -/
theorem Get_nil_selectors (env : Env) (p : Provider) (nc : EC2NodeClass)
    (hs : nc.Spec.LicenseSelectorTerms = none) :
    (Get env p (some nc)).1 = .ret none none ∧
    (Get env p (some nc)).2.trace = p.trace ++ [.lock, .unlock] ∧
    remoteLookups (Get env p (some nc)).2.trace = remoteLookups p.trace ∧
    cacheAccesses (Get env p (some nc)).2.trace = cacheAccesses p.trace ∧
    monitorCalls (Get env p (some nc)).2.trace = monitorCalls p.trace ∧
    (Get env p (some nc)).2.cm = p.cm ∧
    (Get env p (some nc)).2.cache = p.cache := by
  rw [Get_eq, getBody_nil env _ nc hs]
  simp [Provider.emit, remoteLookups, cacheAccesses, monitorCalls, Event.isCacheAccess,
    Event.isHasChanged, List.count_append, List.countP_append]

/-- Witness of C1 at a provider with a non-empty history and a node class without selectors. -/
theorem Get_nil_selectors_witness :
    ncNil.Spec.LicenseSelectorTerms = none ∧
    (Get envABA seen (some ncNil)).1 = .ret none none ∧
    (Get envABA seen (some ncNil)).2.cm = seen.cm :=
  ⟨rfl, (Get_nil_selectors envABA seen ncNil rfl).1,
    (Get_nil_selectors envABA seen ncNil rfl).2.2.2.2.2.1⟩

/-- C2 (the code departs from the claim): on a fresh provider, selectors `[a]` and the
inventory `[a, b, a]`, the key is "1", the cache has no entry for it, `Get` returns the third
resource without error, and afterwards the cache still has no entry under the key. -/
theorem Get_miss_stores_nothing :
    ncA.Spec.LicenseSelectorTerms = some [⟨"a"⟩] ∧
    Hash envABA.visit [⟨"a"⟩] = .ok 1 ∧
    fresh.cache.Get (toString 1) = none ∧
    (Get envABA fresh (some ncA)).1 = .ret (some pgA3) none ∧
    (Get envABA fresh (some ncA)).2.cache.Get (toString 1) = none :=
  ⟨rfl, rfl, by decide, by decide, by decide⟩

/-- C3 (the code departs from the claim): on a fresh provider, selectors `[a]` and a remote
inventory that answers `[a, b, a]` both times, two consecutive calls of `Get` return the same
resource, and the trace records two remote lookups, one per call. -/
theorem Get_twice_looks_up_twice :
    (Get envABA fresh (some ncA)).1 = .ret (some pgA3) none ∧
    (Get envABA (Get envABA fresh (some ncA)).2 (some ncA)).1 = .ret (some pgA3) none ∧
    remoteLookups (Get envABA fresh (some ncA)).2.trace = 1 ∧
    remoteLookups (Get envABA (Get envABA fresh (some ncA)).2 (some ncA)).2.trace = 2 := by
  decide

/-- C4 as stated fails: on a cache miss with a successful remote lookup whose inventory is
`[a, unnamed]` and selectors `[a]`, the claim promises the resource `a` without error; the
comparison dereferences the nil name of the second resource and `Get` faults instead of
returning. -/
theorem Get_miss_faults_on_nil_name :
    ncA.Spec.LicenseSelectorTerms = some [⟨"a"⟩] ∧
    Hash envNoName.visit [⟨"a"⟩] = .ok 1 ∧
    fresh.cache.Get (toString 1) = none ∧
    envNoName.DescribePlacementGroupsWithContext = .ok ⟨[some pgA1, some pgNoName]⟩ ∧
    (Get envNoName fresh (some ncA)).1 = .fault "nil pointer dereference: GroupName" ∧
    ¬ ∃ group err, (Get envNoName fresh (some ncA)).1 = .ret group err := by
  refine ⟨rfl, rfl, by decide, rfl, by decide, ?_⟩
  rintro ⟨group, err, h⟩
  have hf : (Get envNoName fresh (some ncA)).1 = .fault "nil pointer dereference: GroupName" := by
    decide
  rw [hf] at h
  cases h

/-- C4, amended: on a cache miss with a successful remote lookup whose inventory holds only
non-nil resources with non-nil names, `Get` returns without error; the result is absent
exactly when no inventory resource has a name equal to a selector name, and otherwise it
is the resource at the last position of the inventory whose name equals the name of at
least one selector term (no resource after it matches). -/
theorem Get_miss_selects_last (env : Env) (p : Provider) (nc : EC2NodeClass)
    (selectors : List LicenseSelectorTerm) (hash : Nat) (output : DescribePlacementGroupsOutput)
    (hs : nc.Spec.LicenseSelectorTerms = some selectors)
    (hh : Hash env.visit selectors = .ok hash)
    (hc : p.cache.Get (toString hash) = none)
    (hd : env.DescribePlacementGroupsWithContext = .ok output)
    (hwf : ∀ pg ∈ output.PlacementGroups, ∃ g name, pg = some g ∧ g.GroupName = some name) :
    ∃ group, (Get env p (some nc)).1 = .ret group none ∧
      (group = none ↔
        ∀ g, some g ∈ output.PlacementGroups → ∀ s ∈ selectors, g.GroupName ≠ some s.Name) ∧
      (∀ g, group = some g → ∃ pre post,
        output.PlacementGroups = pre ++ some g :: post ∧
        (∃ s ∈ selectors, g.GroupName = some s.Name) ∧
        ∀ g2, some g2 ∈ post → ∀ s ∈ selectors, g2.GroupName ≠ some s.Name) := by
  have hc1 : (p.emit .lock).cache.Get (toString hash) = none := hc
  obtain ⟨r, hr, hcase⟩ := filterGroups_named selectors output.PlacementGroups hwf none
  refine ⟨r, ?_, ?_, ?_⟩
  · rw [Get_eq, getBody_miss env _ nc selectors hash hs hh hc1,
      getMiss_ok env _ nc selectors output r hd hr]
  · rcases hcase with ⟨hrn, hno⟩ | ⟨g, pre, post, hrg, hinv, ⟨s, hsm, hgs⟩, _⟩
    · exact ⟨fun _ => hno, fun _ => hrn⟩
    · constructor
      · intro hn; rw [hn] at hrg; cases hrg
      · intro hno
        have hmem : some g ∈ output.PlacementGroups := by
          rw [hinv]; exact List.mem_append_right pre (List.mem_cons_self _ _)
        exact absurd hgs (hno g hmem s hsm)
  · intro g hg
    rcases hcase with ⟨hrn, _⟩ | ⟨g1, pre, post, hrg, hinv, hex, hpost⟩
    · rw [hrn] at hg; cases hg
    · rw [hrg] at hg
      cases hg
      exact ⟨pre, post, hinv, hex, hpost⟩

/-- Witness of C4, amended: the inventory `[a, b, a]` of the spec and selectors `[a]`; the
resource returned is the third one, not the first. -/
theorem Get_miss_selects_last_witness :
    (Get envABA fresh (some ncA)).1 = .ret (some pgA3) none ∧
    (Get envABA fresh (some ncA)).1 ≠ .ret (some pgA1) none ∧
    ∃ group, (Get envABA fresh (some ncA)).1 = .ret group none ∧
      (group = none ↔
        ∀ g, some g ∈ [some pgA1, some pgB, some pgA3] →
          ∀ s ∈ [(⟨"a"⟩ : LicenseSelectorTerm)], g.GroupName ≠ some s.Name) ∧
      (∀ g, group = some g → ∃ pre post,
        [some pgA1, some pgB, some pgA3] = pre ++ some g :: post ∧
        (∃ s ∈ [(⟨"a"⟩ : LicenseSelectorTerm)], g.GroupName = some s.Name) ∧
        ∀ g2, some g2 ∈ post →
          ∀ s ∈ [(⟨"a"⟩ : LicenseSelectorTerm)], g2.GroupName ≠ some s.Name) :=
  ⟨by decide, by decide,
    Get_miss_selects_last envABA fresh ncA [⟨"a"⟩] 1 ⟨[some pgA1, some pgB, some pgA3]⟩
      rfl rfl (by decide) rfl (by simp [pgA1, pgB, pgA3])⟩

/-- C5: for a non-nil selector slice whose key is not in the cache, if the remote lookup
fails with `err` then `Get` returns the absent result together with exactly `err`, and the
cache and the change monitor after the call equal those before it; the trace gains the
lock, the cache read, the one remote lookup, the diagnostic note and the unlock, and no call
of the change monitor. -/
theorem Get_lookup_failed (env : Env) (p : Provider) (nc : EC2NodeClass)
    (selectors : List LicenseSelectorTerm) (hash : Nat) (err : GoError)
    (hs : nc.Spec.LicenseSelectorTerms = some selectors)
    (hh : Hash env.visit selectors = .ok hash)
    (hc : p.cache.Get (toString hash) = none)
    (hd : env.DescribePlacementGroupsWithContext = .error err) :
    (Get env p (some nc)).1 = .ret none (some err) ∧
    (Get env p (some nc)).2.cache = p.cache ∧
    (Get env p (some nc)).2.cm = p.cm ∧
    (Get env p (some nc)).2.trace =
      p.trace ++ [.lock, .cacheGet (toString hash), .describePlacementGroups,
        .debugf "Error from ec2:describeplacementgroups", .unlock] ∧
    monitorCalls (Get env p (some nc)).2.trace = monitorCalls p.trace := by
  have hc1 : (p.emit .lock).cache.Get (toString hash) = none := hc
  rw [Get_eq, getBody_miss env _ nc selectors hash hs hh hc1,
    getMiss_error env _ nc selectors err hd]
  simp [Provider.emit, monitorCalls, Event.isHasChanged, List.countP_append]

/-- Witness of C5: a fresh provider, selectors `[a]`, a remote inventory that is down. -/
theorem Get_lookup_failed_witness :
    (Get envDown fresh (some ncA)).1 = .ret none (some ⟨"RequestLimitExceeded"⟩) ∧
    (Get envDown fresh (some ncA)).2.cache = fresh.cache ∧
    (Get envDown fresh (some ncA)).2.cm = fresh.cm :=
  have h := Get_lookup_failed envDown fresh ncA [⟨"a"⟩] 1 ⟨"RequestLimitExceeded"⟩
    rfl rfl (by decide) rfl
  ⟨h.1, h.2.1, h.2.2.1⟩

/-- C6: for a non-nil selector slice whose key is present in the cache with the
placement-group value `v` (a resource or the cached absence), `Get` returns `v` with no
error and performs no remote lookup: the trace gains the lock, the one cache read and the
unlock. -/
theorem Get_cache_hit (env : Env) (p : Provider) (nc : EC2NodeClass)
    (selectors : List LicenseSelectorTerm) (hash : Nat) (v : Option PlacementGroup)
    (hs : nc.Spec.LicenseSelectorTerms = some selectors)
    (hh : Hash env.visit selectors = .ok hash)
    (hc : p.cache.Get (toString hash) = some (.placementGroup v)) :
    (Get env p (some nc)).1 = .ret v none ∧
    (Get env p (some nc)).2.trace = p.trace ++ [.lock, .cacheGet (toString hash), .unlock] ∧
    remoteLookups (Get env p (some nc)).2.trace = remoteLookups p.trace := by
  have hc1 : (p.emit .lock).cache.Get (toString hash) = some (.placementGroup v) := hc
  rw [Get_eq, getBody_hit env _ nc selectors hash _ hs hh hc1]
  simp [Provider.emit, remoteLookups, List.count_append, returnCached]

/-- Witness of C6: the cache holds `pgB` under the key of selectors `[a]`; the inventory,
which would select another resource, is not consulted. -/
theorem Get_cache_hit_witness :
    (Get envABA warm (some ncA)).1 = .ret (some pgB) none ∧
    remoteLookups (Get envABA warm (some ncA)).2.trace = remoteLookups warm.trace :=
  have h := Get_cache_hit envABA warm ncA [⟨"a"⟩] 1 (some pgB) rfl rfl (by decide)
  ⟨h.1, h.2.2⟩

/-- C9: for a non-nil selector slice whose hash fails with `err`, `Get` returns the absent
result together with exactly `err`; the trace gains only the lock and the unlock, so there
is no cache access, no remote lookup and no call of the change monitor, and the cache and
the change monitor are unchanged. -/
theorem Get_hash_failed (env : Env) (p : Provider) (nc : EC2NodeClass)
    (selectors : List LicenseSelectorTerm) (err : GoError)
    (hs : nc.Spec.LicenseSelectorTerms = some selectors)
    (hh : Hash env.visit selectors = .error err) :
    (Get env p (some nc)).1 = .ret none (some err) ∧
    (Get env p (some nc)).2.trace = p.trace ++ [.lock, .unlock] ∧
    cacheAccesses (Get env p (some nc)).2.trace = cacheAccesses p.trace ∧
    remoteLookups (Get env p (some nc)).2.trace = remoteLookups p.trace ∧
    monitorCalls (Get env p (some nc)).2.trace = monitorCalls p.trace ∧
    (Get env p (some nc)).2.cm = p.cm ∧
    (Get env p (some nc)).2.cache = p.cache := by
  rw [Get_eq, getBody_hash_error env _ nc selectors err hs hh]
  simp [Provider.emit, remoteLookups, cacheAccesses, monitorCalls, Event.isCacheAccess,
    Event.isHasChanged, List.count_append, List.countP_append]

/-- Witness of C9: the element hash rejects the empty selector name. -/
theorem Get_hash_failed_witness :
    Hash envStrict.visit [⟨""⟩] = .error ⟨"unsupported"⟩ ∧
    (Get envStrict fresh (some ncBad)).1 = .ret none (some ⟨"unsupported"⟩) ∧
    (Get envStrict fresh (some ncBad)).2.trace = fresh.trace ++ [.lock, .unlock] :=
  have h := Get_hash_failed envStrict fresh ncBad [⟨""⟩] ⟨"unsupported"⟩ rfl rfl
  ⟨rfl, h.1, h.2.1⟩

/-- C10: two calls of `Get` that agree on the selector slice, the cache contents and the
environment (hash and remote answer), and differ arbitrarily in `IsNodeTemplate`, in the
node-class name and in the change-monitor state, end the same way (same returned pair, or
the same fault) and leave the same cache. -/
theorem Get_independent_of_caller (env : Env) (p q : Provider) (nc nd : EC2NodeClass)
    (hsel : nc.Spec.LicenseSelectorTerms = nd.Spec.LicenseSelectorTerms)
    (hcache : p.cache = q.cache) :
    (Get env p (some nc)).1 = (Get env q (some nd)).1 ∧
    (Get env p (some nc)).2.cache = (Get env q (some nd)).2.cache := by
  refine ⟨?_, by rw [Get_cache, Get_cache, hcache]⟩
  simp only [Get_eq]
  cases hs : nd.Spec.LicenseSelectorTerms with
  | none => rw [getBody_nil env _ nd hs, getBody_nil env _ nc (hsel.trans hs)]
  | some selectors =>
    have hs1 := hsel.trans hs
    cases hh : Hash env.visit selectors with
    | error err =>
      rw [getBody_hash_error env _ nd selectors err hs hh,
        getBody_hash_error env _ nc selectors err hs1 hh]
    | ok hash =>
      cases hc : q.cache.Get (toString hash) with
      | none =>
        have hq : (q.emit .lock).cache.Get (toString hash) = none := hc
        have hp : (p.emit .lock).cache.Get (toString hash) = none := by
          rw [emit_cache, hcache]; exact hc
        rw [getBody_miss env _ nd selectors hash hs hh hq,
          getBody_miss env _ nc selectors hash hs1 hh hp]
        exact getMiss_fst env _ _ nc nd selectors
      | some v =>
        have hq : (q.emit .lock).cache.Get (toString hash) = some v := hc
        have hp : (p.emit .lock).cache.Get (toString hash) = some v := by
          rw [emit_cache, hcache]; exact hc
        rw [getBody_hit env _ nd selectors hash v hs hh hq,
          getBody_hit env _ nc selectors hash v hs1 hh hp]

/-- Witness of C10: a plain caller on a fresh provider and a node-template caller of another
name on a provider whose monitor has seen other values resolve selectors `[a]` alike. -/
theorem Get_independent_of_caller_witness :
    ncA.IsNodeTemplate ≠ ncA2.IsNodeTemplate ∧ ncA.Name ≠ ncA2.Name ∧ fresh.cm ≠ seen.cm ∧
    (Get envABA fresh (some ncA)).1 = (Get envABA seen (some ncA2)).1 ∧
    (Get envABA fresh (some ncA)).2.cache = (Get envABA seen (some ncA2)).2.cache :=
  ⟨by decide, by decide, by decide, Get_independent_of_caller envABA fresh seen ncA ncA2 rfl rfl⟩

/-- C7: the hash from which `Get` derives the cache key is a function of the selector
slice that does not depend on the order of its terms: for selector slices that are
permutations of each other the hash succeeds for both with the same value, hence the same
key string, or fails for both. -/
theorem Hash_perm (visit : LicenseSelectorTerm → Except GoError Nat)
    (S1 S2 : List LicenseSelectorTerm) (hp : S1.Perm S2) :
    (∀ hash, Hash visit S1 = .ok hash ↔ Hash visit S2 = .ok hash) ∧
    ((∃ e, Hash visit S1 = .error e) ↔ (∃ e, Hash visit S2 = .error e)) ∧
    (Hash visit S1).toOption.map (fun hash => toString hash) =
      (Hash visit S2).toOption.map (fun hash => toString hash) := by
  have h := visitSlice_perm visit hp 0
  refine ⟨fun hash => ?_, ?_, ?_⟩
  · rw [← toOption_eq_some, ← toOption_eq_some]
    unfold Hash
    rw [h]
  · rw [← toOption_eq_none, ← toOption_eq_none]
    unfold Hash
    rw [h]
  · unfold Hash
    rw [h]

/-- Witness of C7: the selector slices `[ab, c]` and `[c, ab]` hash alike. -/
theorem Hash_perm_witness :
    Hash visitLen [⟨"ab"⟩, ⟨"c"⟩] = .ok 3 ∧ Hash visitLen [⟨"c"⟩, ⟨"ab"⟩] = .ok 3 :=
  ⟨rfl, ((Hash_perm visitLen [⟨"ab"⟩, ⟨"c"⟩] [⟨"c"⟩, ⟨"ab"⟩] (List.Perm.swap _ _ _)).1 3).mp rfl⟩

/-- C8: `HasChanged(scopeKey, value)` returns true exactly when the scope key was never seen
or its stored value is not equal to `value`; in that case the stored value of the scope key
becomes `value` and the other scope keys keep theirs; otherwise it returns false and the
state is unchanged. Consequently, for an unseen scope key, `HasChanged(k, V)` followed by
`HasChanged(k, V)` yields true then false, and `HasChanged(k, V)` followed by
`HasChanged(k, V2)` with `V ≠ V2` yields true both times. -/
theorem HasChanged_spec {α : Type} [DecidableEq α] (c : ChangeMonitor α) (k : String)
    (V V2 : α) :
    ((c.HasChanged k V).1 = true ↔ (c.Load k = none ∨ ∃ w, c.Load k = some w ∧ w ≠ V)) ∧
    ((c.HasChanged k V).1 = true →
      (c.HasChanged k V).2.Load k = some V ∧
      ∀ other, other ≠ k → (c.HasChanged k V).2.Load other = c.Load other) ∧
    ((c.HasChanged k V).1 = false → (c.HasChanged k V).2 = c) ∧
    (c.Load k = none →
      (c.HasChanged k V).1 = true ∧ ((c.HasChanged k V).2.HasChanged k V).1 = false) ∧
    (c.Load k = none → V ≠ V2 →
      (c.HasChanged k V).1 = true ∧ ((c.HasChanged k V).2.HasChanged k V2).1 = true) := by
  have hfirst : (c.HasChanged k V).1 = true ↔
      (c.Load k = none ∨ ∃ w, c.Load k = some w ∧ w ≠ V) := by
    unfold ChangeMonitor.HasChanged
    cases hl : c.Load k with
    | none => simp
    | some existing => by_cases he : existing = V <;> simp [he]
  have hsecond : ∀ W : α, ((c.HasChanged k V).2.HasChanged k W).1 = true ↔ V ≠ W := by
    intro W
    have hl := Load_HasChanged c k V
    generalize (c.HasChanged k V).2 = d at hl
    unfold ChangeMonitor.HasChanged
    rw [hl]
    by_cases he : V = W <;> simp [he]
  refine ⟨hfirst, ?_, ?_, ?_, ?_⟩
  · intro ht
    refine ⟨Load_HasChanged c k V, fun other hne => ?_⟩
    revert ht
    unfold ChangeMonitor.HasChanged
    cases hl : c.Load k with
    | none => intro _; exact Load_Store_other c k other V hne
    | some existing =>
      by_cases he : existing = V
      · simp [he]
      · simp only [he, if_false]; intro _; exact Load_Store_other c k other V hne
  · unfold ChangeMonitor.HasChanged
    cases hl : c.Load k with
    | none => simp
    | some existing => by_cases he : existing = V <;> simp [he]
  · intro hn
    refine ⟨hfirst.mpr (Or.inl hn), ?_⟩
    have h := hsecond V
    cases hb : ((c.HasChanged k V).2.HasChanged k V).1 with
    | false => rfl
    | true => exact absurd rfl (h.mp hb)
  · intro hn hne
    exact ⟨hfirst.mpr (Or.inl hn), (hsecond V2).mpr hne⟩

/-- Witness of C8 on a fresh monitor of numbers. -/
theorem HasChanged_spec_witness :
    ((NewChangeMonitor : ChangeMonitor Nat).HasChanged "k" 1).1 = true ∧
    (((NewChangeMonitor : ChangeMonitor Nat).HasChanged "k" 1).2.HasChanged "k" 1).1 = false ∧
    (((NewChangeMonitor : ChangeMonitor Nat).HasChanged "k" 1).2.HasChanged "k" 2).1 = true :=
  have h := HasChanged_spec (NewChangeMonitor : ChangeMonitor Nat) "k" 1 2
  ⟨(h.2.2.2.1 rfl).1, (h.2.2.2.1 rfl).2, (h.2.2.2.2 rfl (by decide)).2⟩

/-- C11 (the code departs from the claim): against an initially empty cache, selectors `[a]`
and a remote inventory that answers `[a, b, a]` every time, the run of one call makes one
remote lookup, but the run of two identical calls, admitted one after the other by the
exclusive lock, makes two remote lookups, and the run of three makes three. -/
theorem getSerial_looks_up_per_call :
    fresh.cache.items = [] ∧
    remoteLookups fresh.trace = 0 ∧
    remoteLookups (getSerial envABA (some ncA) 1 fresh).trace = 1 ∧
    remoteLookups (getSerial envABA (some ncA) 2 fresh).trace = 2 ∧
    remoteLookups (getSerial envABA (some ncA) 3 fresh).trace = 3 := by
  decide

/-- C12: the filter result does not depend on the order or the multiplicity of the
selectors. For selector slices `S1` and `S2` that carry the same set of names, the two loops
of lines 78-86 end alike on every inventory, the miss path of `Get` returns the same
thing for both, and so do two calls of `Get` that both miss the cache; in particular this
holds for selector slices that are permutations of each other. -/
theorem Get_miss_same_names (env : Env) (p q : Provider) (nc nd : EC2NodeClass)
    (S1 S2 : List LicenseSelectorTerm) :
    ((∀ name, (∃ s ∈ S1, s.Name = name) ↔ (∃ s ∈ S2, s.Name = name)) →
      (∀ inv group, filterGroups S1 inv group = filterGroups S2 inv group) ∧
      (getMiss env p nc S1).1 = (getMiss env q nd S2).1 ∧
      (∀ h1 h2, nc.Spec.LicenseSelectorTerms = some S1 → nd.Spec.LicenseSelectorTerms = some S2 →
        Hash env.visit S1 = .ok h1 → Hash env.visit S2 = .ok h2 →
        p.cache.Get (toString h1) = none → q.cache.Get (toString h2) = none →
        (Get env p (some nc)).1 = (Get env q (some nd)).1)) ∧
    (S1.Perm S2 →
      (∀ inv group, filterGroups S1 inv group = filterGroups S2 inv group) ∧
      (getMiss env p nc S1).1 = (getMiss env q nd S2).1) := by
  have main : (∀ name, (∃ s ∈ S1, s.Name = name) ↔ (∃ s ∈ S2, s.Name = name)) →
      (∀ inv group, filterGroups S1 inv group = filterGroups S2 inv group) ∧
      (getMiss env p nc S1).1 = (getMiss env q nd S2).1 := fun hn =>
    ⟨fun inv group => filterGroups_same_names S1 S2 hn inv group,
      getMiss_same_names env p q nc nd S1 S2 hn⟩
  refine ⟨fun hn => ⟨(main hn).1, (main hn).2, ?_⟩, fun hp => main ?_⟩
  · intro h1 h2 hs1 hs2 hh1 hh2 hc1 hc2
    have hp1 : (p.emit .lock).cache.Get (toString h1) = none := hc1
    have hq2 : (q.emit .lock).cache.Get (toString h2) = none := hc2
    simp only [Get, getBody_miss env _ nc S1 h1 hs1 hh1 hp1,
      getBody_miss env _ nd S2 h2 hs2 hh2 hq2]
    exact getMiss_same_names env _ _ nc nd S1 S2 hn
  · intro name
    constructor
    · rintro ⟨s, hs, hname⟩; exact ⟨s, hp.mem_iff.mp hs, hname⟩
    · rintro ⟨s, hs, hname⟩; exact ⟨s, hp.mem_iff.mpr hs, hname⟩

/-- Witness of C12: the selectors `[a, b]` and `[b, a, b]` select the same resource of the
inventory `[a, b, a]`. -/
theorem Get_miss_same_names_witness :
    filterGroups [⟨"a"⟩, ⟨"b"⟩] [some pgA1, some pgB, some pgA3] none = some (some pgA3) ∧
    filterGroups [⟨"b"⟩, ⟨"a"⟩, ⟨"b"⟩] [some pgA1, some pgB, some pgA3] none =
      filterGroups [⟨"a"⟩, ⟨"b"⟩] [some pgA1, some pgB, some pgA3] none ∧
    (getMiss envABA fresh ncBAB [⟨"b"⟩, ⟨"a"⟩, ⟨"b"⟩]).1 =
      (getMiss envABA fresh ncAB [⟨"a"⟩, ⟨"b"⟩]).1 :=
  have h := (Get_miss_same_names envABA fresh fresh ncBAB ncAB
    [⟨"b"⟩, ⟨"a"⟩, ⟨"b"⟩] [⟨"a"⟩, ⟨"b"⟩]).1 (by
      intro name
      constructor
      · rintro ⟨s, hs, rfl⟩
        simp only [List.mem_cons, List.mem_singleton, List.not_mem_nil, or_false] at hs
        rcases hs with rfl | rfl | rfl
        · exact ⟨⟨"b"⟩, by simp, rfl⟩
        · exact ⟨⟨"a"⟩, by simp, rfl⟩
        · exact ⟨⟨"b"⟩, by simp, rfl⟩
      · rintro ⟨s, hs, rfl⟩
        simp only [List.mem_cons, List.mem_singleton, List.not_mem_nil, or_false] at hs
        rcases hs with rfl | rfl
        · exact ⟨⟨"a"⟩, by simp, rfl⟩
        · exact ⟨⟨"b"⟩, by simp, rfl⟩)
  ⟨by decide, h.1 _ _, h.2.1⟩

/-- C13: an empty but non-nil selector slice is not treated as absent. With a cache miss,
`Get` derives the key of the empty slice, reads the cache under it once, asks the remote
inventory exactly once, and returns the absent result with no error whatever inventory a
successful lookup answers, or the lookup's error when the lookup fails. -/
theorem Get_empty_selectors (env : Env) (p : Provider) (nc : EC2NodeClass)
    (hs : nc.Spec.LicenseSelectorTerms = some [])
    (hc : p.cache.Get (toString (0 : Nat)) = none) :
    Hash env.visit [] = .ok 0 ∧
    (∃ rest, (Get env p (some nc)).2.trace =
      p.trace ++ [.lock, .cacheGet (toString (0 : Nat)), .describePlacementGroups] ++ rest) ∧
    cacheAccesses (Get env p (some nc)).2.trace = cacheAccesses p.trace + 1 ∧
    remoteLookups (Get env p (some nc)).2.trace = remoteLookups p.trace + 1 ∧
    (∀ output, env.DescribePlacementGroupsWithContext = .ok output →
      (Get env p (some nc)).1 = .ret none none) ∧
    (∀ err, env.DescribePlacementGroupsWithContext = .error err →
      (Get env p (some nc)).1 = .ret none (some err)) := by
  have hh : Hash env.visit [] = .ok 0 := rfl
  have hc1 : (p.emit .lock).cache.Get (toString (0 : Nat)) = none := hc
  have hbody := getBody_miss env (p.emit .lock) nc [] 0 hs hh hc1
  refine ⟨hh, ?_, ?_, Get_miss_remoteLookups env p nc [] 0 hs hh hc, ?_, ?_⟩
  · simp only [Get, hbody]
    cases hd : env.DescribePlacementGroupsWithContext with
    | error err =>
      rw [getMiss_error env _ nc [] err hd]
      exact ⟨[.debugf "Error from ec2:describeplacementgroups", .unlock], by
        simp [Provider.emit]⟩
    | ok output =>
      rw [getMiss_ok env _ nc [] output none hd (filterGroups_nil _ none)]
      simp only
      split
      · exact ⟨[.hasChanged (scopeKey nc), .debugf "discovered placement groups", .unlock], by
          simp [Provider.emit]⟩
      · exact ⟨[.hasChanged (scopeKey nc), .unlock], by simp [Provider.emit]⟩
  · simp only [Get, hbody, emit_trace, cacheAccesses, List.countP_append]
    have h := getMiss_cacheAccesses env ((p.emit .lock).emit (.cacheGet (toString (0 : Nat))))
      nc []
    simp only [emit_trace, cacheAccesses, List.countP_append] at h
    rw [h]
    simp [Event.isCacheAccess]
  · intro output hd
    simp only [Get, hbody]
    rw [getMiss_ok env _ nc [] output none hd (filterGroups_nil _ none)]
  · intro err hd
    simp only [Get, hbody]
    rw [getMiss_error env _ nc [] err hd]

/-- Witness of C13: the empty selector slice against the inventory `[a, b, a]` and against a
remote inventory that is down. -/
theorem Get_empty_selectors_witness :
    (Get envABA fresh (some ncEmpty)).1 = .ret none none ∧
    (Get envDown fresh (some ncEmpty)).1 = .ret none (some ⟨"RequestLimitExceeded"⟩) ∧
    remoteLookups (Get envABA fresh (some ncEmpty)).2.trace = remoteLookups fresh.trace + 1 ∧
    cacheAccesses (Get envABA fresh (some ncEmpty)).2.trace = cacheAccesses fresh.trace + 1 :=
  have h := Get_empty_selectors envABA fresh ncEmpty rfl (by decide)
  have hdown := Get_empty_selectors envDown fresh ncEmpty rfl (by decide)
  ⟨h.2.2.2.2.1 _ rfl, hdown.2.2.2.2.2 _ rfl, h.2.2.2.1, h.2.2.1⟩

/-- C14: `Get` reaches no failing operation when the node class is non-nil, every value
stored in the cache is a placement-group reference (possibly nil), and every resource of a
successfully returned inventory is non-nil with a non-nil name: it then returns a pair.
Without the name precondition, on a miss with a successful lookup, a non-empty selector
slice and an inventory that holds a resource with a nil name make the comparison of line
81 fault. -/
theorem Get_faults (env : Env) (p : Provider) (nc : EC2NodeClass) :
    ((∀ kv ∈ p.cache.items, ∃ g, kv.2 = Iface.placementGroup g) →
      (∀ output, env.DescribePlacementGroupsWithContext = .ok output →
        ∀ pg ∈ output.PlacementGroups, ∃ g name, pg = some g ∧ g.GroupName = some name) →
      ∃ group err, (Get env p (some nc)).1 = .ret group err) ∧
    (∀ selectors hash output g, nc.Spec.LicenseSelectorTerms = some selectors →
      Hash env.visit selectors = .ok hash →
      p.cache.Get (toString hash) = none →
      env.DescribePlacementGroupsWithContext = .ok output →
      selectors ≠ [] → some g ∈ output.PlacementGroups → g.GroupName = none →
      (Get env p (some nc)).1 = .fault "nil pointer dereference: GroupName") := by
  constructor
  · intro hcache hinv
    cases hs : nc.Spec.LicenseSelectorTerms with
    | none => exact ⟨none, none, by simp only [Get, getBody_nil env _ nc hs]⟩
    | some selectors =>
      cases hh : Hash env.visit selectors with
      | error err =>
        exact ⟨none, some err, by simp only [Get, getBody_hash_error env _ nc selectors err hs hh]⟩
      | ok hash =>
        cases hc : p.cache.Get (toString hash) with
        | some v =>
          have hc1 : (p.emit .lock).cache.Get (toString hash) = some v := hc
          obtain ⟨g, rfl⟩ := Cache_Get_placementGroup p.cache hcache _ v hc
          exact ⟨g, none, by
            simp only [Get, getBody_hit env _ nc selectors hash _ hs hh hc1, returnCached]⟩
        | none =>
          have hc1 : (p.emit .lock).cache.Get (toString hash) = none := hc
          cases hd : env.DescribePlacementGroupsWithContext with
          | error err =>
            exact ⟨none, some err, by
              simp only [Get, getBody_miss env _ nc selectors hash hs hh hc1,
                getMiss_error env _ nc selectors err hd]⟩
          | ok output =>
            obtain ⟨r, hr, _⟩ :=
              filterGroups_named selectors output.PlacementGroups (hinv output hd) none
            exact ⟨r, none, by
              simp only [Get, getBody_miss env _ nc selectors hash hs hh hc1,
                getMiss_ok env _ nc selectors output r hd hr]⟩
  · intro selectors hash output g hs hh hc hd hne hmem hname
    have hc1 : (p.emit .lock).cache.Get (toString hash) = none := hc
    have hf := filterGroups_unnamed selectors hne output.PlacementGroups
      ⟨some g, hmem, Or.inr ⟨g, rfl, hname⟩⟩ none
    simp only [Get, getBody_miss env _ nc selectors hash hs hh hc1,
      getMiss_fault env _ nc selectors output hd hf]

/-- Witness of C14: with a cache that holds a placement group and the inventory `[a, b, a]`
the call returns; with the inventory `[a, unnamed]` and selectors `[a]` it faults. -/
theorem Get_faults_witness :
    (∃ group err, (Get envABA warm (some ncAB)).1 = .ret group err) ∧
    (Get envNoName fresh (some ncA)).1 = .fault "nil pointer dereference: GroupName" :=
  ⟨(Get_faults envABA warm ncAB).1 (by simp [warm])
      (by
        intro output hd
        cases hd
        simp [pgA1, pgB, pgA3]),
    (Get_faults envNoName fresh ncA).2 [⟨"a"⟩] 1 ⟨[some pgA1, some pgNoName]⟩ pgNoName
      rfl rfl (by decide) rfl (by simp) (by simp) rfl⟩

end Placementgroup
